import Mathlib

/-!
Verification of the dashboard-sharing subsystem of the portfolio application.

The embedding models the backend relation store (tables `shared_dashboards`,
`dashboard_views`, `projects`, `profiles`) as lists of records, and the
operations of the sharing slice as pure state-passing functions translated
from their sources:

* `track_dashboard_view` and `get_dashboard_view_stats` from the SQL
  migration defining those plpgsql functions;
* `SharingService.createShareToken` and `SharingService.validateShareToken`
  from `src/services/sharingService.ts`;
* `PublicProjectService.getProjectsByShareToken` from the public project
  service module;
* the `loadSharedDashboard` effect of the `/shared/:token` page component;
* the row-level-security policy predicates from the sharing migration.

Timestamps are integers (seconds); `now` is passed explicitly where the
source reads the clock. Optional (nullable) columns are `Option` fields.
-/

namespace Portfolio

/-- A row of `shared_dashboards` (one ShareRecord): columns from the two
migration files, including the `view_count` column added by the
view-tracking migration. -/
structure ShareRecord where
  id : Nat
  userId : String
  shareToken : String
  isActive : Bool
  createdAt : Int
  updatedAt : Int
  expiresAt : Option Int
  viewCount : Nat
deriving Repr, DecidableEq

/-- A row of `dashboard_views` (one ViewEvent), from the view-tracking
migration. -/
structure ViewEvent where
  id : Nat
  sharedDashboardId : Nat
  viewerIp : Option String
  viewerUserAgent : Option String
  viewedAt : Int
  referrer : Option String
  country : Option String
  city : Option String
deriving Repr, DecidableEq

/-- A row of `projects` (the columns the sharing slice reads). -/
structure DbProject where
  id : String
  userId : String
  name : String
  client : String
  projectUrl : String
  githubUrl : String
  createdAt : Int
deriving Repr, DecidableEq

/-- A row of `profiles` (the columns the sharing slice reads;
`display_name` and `email` are nullable in the queries' handling). -/
structure Profile where
  id : String
  userId : String
  displayName : Option String
  email : Option String
deriving Repr, DecidableEq

/-- The backend database state seen by the sharing subsystem. -/
structure DB where
  sharedDashboards : List ShareRecord
  dashboardViews : List ViewEvent
  projects : List DbProject
  profiles : List Profile
deriving Repr, DecidableEq

/-- The token-validity row predicate shared by `track_dashboard_view`,
`validateShareToken` and `getProjectsByShareToken`:
`share_token = tok AND is_active = true AND (expires_at IS NULL OR expires_at > now())`. -/
def tokenMatches (tok : String) (now : Int) (r : ShareRecord) : Bool :=
  r.shareToken == tok && r.isActive &&
    (match r.expiresAt with
     | none => true
     | some e => decide (now < e))

/-- `SELECT id FROM shared_dashboards WHERE share_token = tok AND is_active
AND (expires_at IS NULL OR expires_at > now())` — the lookup statement of
`track_dashboard_view` (plpgsql `SELECT INTO` takes the first row). -/
def sqlLookup (db : DB) (now : Int) (tok : String) : Option Nat :=
  (db.sharedDashboards.find? (tokenMatches tok now)).map ShareRecord.id

/-- `UPDATE shared_dashboards SET view_count = view_count + 1 WHERE id = rid`;
the `update_updated_at_column` trigger also stamps `updated_at`. -/
def sqlIncrement (db : DB) (now : Int) (rid : Nat) : DB :=
  { db with
    sharedDashboards := db.sharedDashboards.map fun s =>
      if s.id == rid then { s with viewCount := s.viewCount + 1, updatedAt := now } else s }

/-- `INSERT INTO dashboard_views (shared_dashboard_id, viewer_ip,
viewer_user_agent, referrer) VALUES (...)`; `viewed_at` defaults to `now()`,
`country` and `city` are never populated. -/
def sqlInsertView (db : DB) (ev : ViewEvent) : DB :=
  { db with dashboardViews := db.dashboardViews ++ [ev] }

/-- The ViewEvent row built by `track_dashboard_view`'s INSERT. -/
def mkViewEvent (eid rid : Nat) (ip ua ref : Option String) (now : Int) : ViewEvent :=
  { id := eid, sharedDashboardId := rid, viewerIp := ip, viewerUserAgent := ua,
    viewedAt := now, referrer := ref, country := none, city := none }

/-- `public.track_dashboard_view(p_share_token, p_viewer_ip, p_user_agent,
p_referrer)`: look up the dashboard by the validity predicate; if none,
return false with no writes; else increment the view counter and insert one
view row, returning true. `eid` stands for the generated row id. -/
def track_dashboard_view (db : DB) (now : Int) (eid : Nat)
    (p_share_token : String) (p_viewer_ip p_user_agent p_referrer : Option String) :
    Bool × DB :=
  match sqlLookup db now p_share_token with
  | none => (false, db)
  | some rid =>
      (true, sqlInsertView (sqlIncrement db now rid)
        (mkViewEvent eid rid p_viewer_ip p_user_agent p_referrer now))

/-- View counter of the (first) `shared_dashboards` row with id `rid`
(0 when absent) — the observable a reader of the table sees. -/
def viewCountOf (db : DB) (rid : Nat) : Nat :=
  ((db.sharedDashboards.find? (fun s => s.id == rid)).map ShareRecord.viewCount).getD 0

/-- Number of `dashboard_views` rows referencing the dashboard `rid`. -/
def eventCountOf (db : DB) (rid : Nat) : Nat :=
  db.dashboardViews.countP (fun e => e.sharedDashboardId == rid)

/-- Incrementing the row `rid` raises the first-match view count of `rid`
by exactly one, provided a row with that id exists. -/
theorem find?_viewCount_map_inc (now : Int) (rid : Nat) (l : List ShareRecord)
    (h : ∃ s ∈ l, s.id = rid) :
    (((l.map fun s =>
        if s.id == rid then { s with viewCount := s.viewCount + 1, updatedAt := now } else s).find?
          fun s => s.id == rid).map ShareRecord.viewCount).getD 0
      = (((l.find? fun s => s.id == rid).map ShareRecord.viewCount).getD 0) + 1 := by
  induction l with
  | nil => simp at h
  | cons a t ih =>
      by_cases ha : a.id = rid
      · simp [List.find?_cons, ha]
      · have ht : ∃ s ∈ t, s.id = rid := by
          rcases h with ⟨s, hs, hsid⟩
          rcases List.mem_cons.mp hs with h1 | h2
          · exact absurd (h1 ▸ hsid) ha
          · exact ⟨s, h2, hsid⟩
        simpa [List.find?_cons, ha] using ht |> ih

/-- Incrementing the row `rid` leaves the first-match lookup of any other
id unchanged. -/
theorem find?_map_inc_ne (now : Int) (rid rid' : Nat) (h : rid' ≠ rid)
    (l : List ShareRecord) :
    ((l.map fun s =>
        if s.id == rid then { s with viewCount := s.viewCount + 1, updatedAt := now } else s).find?
          fun s => s.id == rid')
      = l.find? fun s => s.id == rid' := by
  induction l with
  | nil => rfl
  | cons a t ih =>
      rw [List.map_cons]
      by_cases ha : a.id = rid
      · have ha' : ¬ a.id = rid' := fun hc => h (hc ▸ ha ▸ rfl)
        rw [List.find?_cons_of_neg _ (by simp [ha, ha', Ne.symm h]),
          List.find?_cons_of_neg _ (by simp [ha']), ih]
      · by_cases ha' : a.id = rid'
        · rw [List.find?_cons_of_pos _ (by simp [ha, ha', h]),
            List.find?_cons_of_pos _ (by simp [ha'])]
          simp [ha, ha', h]
        · rw [List.find?_cons_of_neg _ (by simp [ha, ha']),
            List.find?_cons_of_neg _ (by simp [ha']), ih]

/-- C1: `track_dashboard_view` returns `false` and leaves the whole state
unchanged whenever no ShareRecord satisfies the validity predicate for the
token (no record, inactive, or expired); when the lookup finds a valid
record it returns `true`, raises exactly that record's view counter by 1,
leaves every other view counter unchanged, and appends exactly one
ViewEvent row referencing it, carrying the supplied optional metadata
(absent fields stored as `none`) — projects and profiles untouched. -/
theorem C1_track_dashboard_view_spec (db : DB) (now : Int) (eid : Nat)
    (tok : String) (ip ua ref : Option String) :
    ((∀ r ∈ db.sharedDashboards, tokenMatches tok now r = false) →
        track_dashboard_view db now eid tok ip ua ref = (false, db))
    ∧ (∀ r, db.sharedDashboards.find? (tokenMatches tok now) = some r →
        (track_dashboard_view db now eid tok ip ua ref).1 = true
        ∧ viewCountOf (track_dashboard_view db now eid tok ip ua ref).2 r.id
            = viewCountOf db r.id + 1
        ∧ (∀ rid', rid' ≠ r.id →
            viewCountOf (track_dashboard_view db now eid tok ip ua ref).2 rid'
              = viewCountOf db rid')
        ∧ (track_dashboard_view db now eid tok ip ua ref).2.dashboardViews
            = db.dashboardViews ++ [mkViewEvent eid r.id ip ua ref now]
        ∧ (track_dashboard_view db now eid tok ip ua ref).2.projects = db.projects
        ∧ (track_dashboard_view db now eid tok ip ua ref).2.profiles = db.profiles) := by
  constructor
  · intro hall
    have hnone : db.sharedDashboards.find? (tokenMatches tok now) = none := by
      rw [List.find?_eq_none]
      intro x hx
      simp [hall x hx]
    simp [track_dashboard_view, sqlLookup, hnone]
  · intro r hr
    have hmem : r ∈ db.sharedDashboards := List.mem_of_find?_eq_some hr
    have hlook : sqlLookup db now tok = some r.id := by
      simp [sqlLookup, hr]
    refine ⟨by simp [track_dashboard_view, hlook], ?_, ?_, ?_, ?_, ?_⟩
    · simp only [track_dashboard_view, hlook]
      show viewCountOf (sqlInsertView (sqlIncrement db now r.id) _) r.id
          = viewCountOf db r.id + 1
      simp only [viewCountOf, sqlInsertView, sqlIncrement]
      exact find?_viewCount_map_inc now r.id db.sharedDashboards ⟨r, hmem, rfl⟩
    · intro rid' hne
      simp only [track_dashboard_view, hlook]
      show viewCountOf (sqlInsertView (sqlIncrement db now r.id) _) rid'
          = viewCountOf db rid'
      simp only [viewCountOf, sqlInsertView, sqlIncrement]
      rw [find?_map_inc_ne now r.id rid' hne]
    · simp [track_dashboard_view, hlook, sqlInsertView, sqlIncrement]
    · simp [track_dashboard_view, hlook, sqlInsertView, sqlIncrement]
    · simp [track_dashboard_view, hlook, sqlInsertView, sqlIncrement]

/-- A sample ShareRecord used to evaluate the operations concretely. -/
def sampleRecord : ShareRecord :=
  { id := 1, userId := "owner1", shareToken := "tok1", isActive := true,
    createdAt := 0, updatedAt := 0, expiresAt := none, viewCount := 0 }

/-- A sample database holding one active, never-expiring share record. -/
def sampleDB : DB :=
  { sharedDashboards := [sampleRecord], dashboardViews := [], projects := [], profiles := [] }

/-- Witness for C1: on `sampleDB`, tracking with an unknown token returns
`false` and changes nothing, while tracking with the live token returns
`true` and raises the record's counter from 0 to 1. -/
theorem C1_track_dashboard_view_witness :
    track_dashboard_view sampleDB 5 7 "nope" none none none = (false, sampleDB)
    ∧ (track_dashboard_view sampleDB 5 7 "tok1" (some "1.2.3.4") none none).1 = true
    ∧ viewCountOf (track_dashboard_view sampleDB 5 7 "tok1" (some "1.2.3.4") none none).2 1
        = viewCountOf sampleDB 1 + 1 :=
  have h := (C1_track_dashboard_view_spec sampleDB 5 7 "tok1" (some "1.2.3.4") none none).2
    sampleRecord (by decide)
  ⟨(C1_track_dashboard_view_spec sampleDB 5 7 "nope" none none none).1 (by decide),
    h.1, h.2.1⟩

/-- The `{ shareToken, error }` shape returned by
`SharingService.createShareToken` (the error holds the message). -/
structure CreateShareResult where
  shareToken : Option String
  error : Option String
deriving Repr, DecidableEq

/-- `SharingService.createShareToken(expiresAt?)`: if unauthenticated,
error; otherwise run the deactivation `update … set is_active = false where
user_id = uid` — whose error the source discards, so a failed update leaves
the table unchanged and the flow continues — then insert the new active
record with counter 0. Only the insert's error is checked. `newToken` is
the freshly generated token, `newId` the generated row id; the two `Bool`
flags say whether each storage round-trip fails. -/
def createShareToken (db : DB) (user : Option String) (now : Int)
    (newId : Nat) (newToken : String) (expiresAt : Option Int)
    (deactivateFails insertFails : Bool) : CreateShareResult × DB :=
  match user with
  | none => ({ shareToken := none, error := some "User not authenticated" }, db)
  | some uid =>
      let db1 := if deactivateFails then db else
        { db with sharedDashboards := db.sharedDashboards.map fun s =>
            if s.userId == uid then { s with isActive := false, updatedAt := now } else s }
      if insertFails then
        ({ shareToken := none, error := some "insert failed" }, db1)
      else
        ({ shareToken := some newToken, error := none },
         { db1 with sharedDashboards := db1.sharedDashboards ++
            [{ id := newId, userId := uid, shareToken := newToken, isActive := true,
               createdAt := now, updatedAt := now, expiresAt := expiresAt, viewCount := 0 }] })

/-- The owner's records that are currently active. -/
def activeRecordsOf (db : DB) (uid : String) : List ShareRecord :=
  db.sharedDashboards.filter (fun s => s.userId == uid && s.isActive)

/-- After the deactivation update, no record of `uid` is active. -/
theorem filter_deactivated_nil (uid : String) (now : Int) (l : List ShareRecord) :
    ((l.map fun s =>
        if s.userId == uid then { s with isActive := false, updatedAt := now } else s).filter
      fun s => s.userId == uid && s.isActive) = [] := by
  induction l with
  | nil => rfl
  | cons a t ih =>
      rw [List.map_cons, List.filter_cons]
      by_cases ha : a.userId = uid
      · simpa [ha] using ih
      · simpa [ha] using ih

/-- C2: a successful `createShareToken` (authenticated caller, both storage
round-trips succeed) returns the new token with no error, leaves the owner
with exactly one active ShareRecord — the newly inserted one, carrying the
new token and counter 0 — and every record of the owner that was previously
active is now inactive. -/
theorem C2_createShareToken_single_active (db : DB) (uid : String) (now : Int)
    (newId : Nat) (newToken : String) (expiresAt : Option Int) :
    (createShareToken db (some uid) now newId newToken expiresAt false false).1
        = { shareToken := some newToken, error := none }
    ∧ activeRecordsOf (createShareToken db (some uid) now newId newToken expiresAt false false).2 uid
        = [{ id := newId, userId := uid, shareToken := newToken, isActive := true,
             createdAt := now, updatedAt := now, expiresAt := expiresAt, viewCount := 0 }]
    ∧ (∀ s ∈ db.sharedDashboards, s.userId = uid →
        { s with isActive := false, updatedAt := now }
          ∈ (createShareToken db (some uid) now newId newToken expiresAt false false).2.sharedDashboards) := by
  refine ⟨rfl, ?_, ?_⟩
  · simp only [createShareToken, activeRecordsOf, if_neg (Bool.false_ne_true)]
    rw [List.filter_append, filter_deactivated_nil]
    simp
  · intro s hs hsuid
    simp only [createShareToken, if_neg (Bool.false_ne_true)]
    refine List.mem_append_left _ ?_
    have : ({ s with isActive := false, updatedAt := now } : ShareRecord)
        = (fun s => if s.userId == uid then { s with isActive := false, updatedAt := now } else s) s := by
      simp [hsuid]
    rw [this]
    exact List.mem_map_of_mem _ hs

/-- Witness for C2: on a database where `owner1` already has the active
record `sampleRecord`, issuing a fresh token leaves exactly the new record
active and the old record deactivated. -/
theorem C2_createShareToken_witness :
    (createShareToken sampleDB (some "owner1") 9 2 "tok2" none false false).1
        = { shareToken := some "tok2", error := none }
    ∧ activeRecordsOf (createShareToken sampleDB (some "owner1") 9 2 "tok2" none false false).2 "owner1"
        = [{ id := 2, userId := "owner1", shareToken := "tok2", isActive := true,
             createdAt := 9, updatedAt := 9, expiresAt := none, viewCount := 0 }]
    ∧ ({ sampleRecord with isActive := false, updatedAt := 9 } : ShareRecord)
        ∈ (createShareToken sampleDB (some "owner1") 9 2 "tok2" none false false).2.sharedDashboards :=
  have h := C2_createShareToken_single_active sampleDB "owner1" 9 2 "tok2" none
  ⟨h.1, h.2.1, h.2.2 sampleRecord (by decide) rfl⟩

/-- C8 counterexample: when the deactivation update fails (a storage-layer
failure) but the insert succeeds, `createShareToken` reports success — the
new token with a `none` error — because the source never inspects the
deactivation call's error. This refutes the claim that every storage-layer
failure during the operation, including one of the deactivation step,
surfaces as a non-null typed error. -/
theorem C8_deactivation_failure_counterexample :
    (createShareToken sampleDB (some "owner1") 9 2 "tok2" none true false).1
      = { shareToken := some "tok2", error := none } := rfl

/-- C8 amended: a failure of the insert step surfaces as a non-null typed
error and no token; but a failure of the deactivation step alone is
ignored — whenever the insert succeeds the operation reports success
(token returned, error `none`), whether or not the deactivation step
failed. -/
theorem C8_insert_failure_surfaces (db : DB) (uid : String) (now : Int)
    (newId : Nat) (newToken : String) (expiresAt : Option Int) (deactivateFails : Bool) :
    ((createShareToken db (some uid) now newId newToken expiresAt deactivateFails true).1.shareToken
        = none
      ∧ (createShareToken db (some uid) now newId newToken expiresAt deactivateFails true).1.error
        ≠ none)
    ∧ (createShareToken db (some uid) now newId newToken expiresAt deactivateFails false).1.shareToken
        = some newToken
    ∧ (createShareToken db (some uid) now newId newToken expiresAt deactivateFails false).1.error
        = none := by
  cases deactivateFails <;> simp [createShareToken]

/-- `SharingService.validateShareToken(token)`: one query filtered by
`share_token = token`, `is_active = true`, `expires_at IS NULL OR
expires_at > now()`, finished with `.single()` — which yields the row when
exactly one matches and the distinguished `PGRST116` not-found outcome
otherwise (`userId: null` with an "Invalid or expired share token"
message). `none` models that not-found outcome. The operation only reads. -/
def validateShareToken (db : DB) (now : Int) (token : String) : Option String :=
  match db.sharedDashboards.filter (tokenMatches token now) with
  | [r] => some r.userId
  | _ => none

/-- A record passing the validity predicate carries the searched token. -/
theorem tokenMatches_shareToken {tok : String} {now : Int} {r : ShareRecord}
    (h : tokenMatches tok now r = true) : r.shareToken = tok := by
  have := (Bool.and_elim_left (Bool.and_elim_left h))
  simpa using this

/-- With globally unique tokens, the validity filter returns exactly the
one matching record. -/
theorem filter_tokenMatches_single (tok : String) (now : Int) :
    ∀ l : List ShareRecord, (l.map ShareRecord.shareToken).Nodup →
      ∀ r ∈ l, tokenMatches tok now r = true →
        l.filter (tokenMatches tok now) = [r] := by
  intro l
  induction l with
  | nil => intro _ r hr; cases hr
  | cons a t ih =>
      intro hnd r hr hpred
      have hnd' : a.shareToken ∉ t.map ShareRecord.shareToken
          ∧ (t.map ShareRecord.shareToken).Nodup := by
        rw [List.map_cons, List.nodup_cons] at hnd
        exact hnd
      rcases List.mem_cons.mp hr with rfl | hrt
      · rw [List.filter_cons, if_pos (by simpa using hpred)]
        have hnil : t.filter (tokenMatches tok now) = [] := by
          rw [List.filter_eq_nil_iff]
          intro x hx hxp
          exact hnd'.1 (by
            have hx1 : x.shareToken = tok := tokenMatches_shareToken hxp
            have hr1 : r.shareToken = tok := tokenMatches_shareToken hpred
            rw [hr1, ← hx1]
            exact List.mem_map_of_mem ShareRecord.shareToken hx)
        rw [hnil]
      · have hpa : ¬ tokenMatches tok now a = true := by
          intro hpa
          exact hnd'.1 (by
            have ha1 : a.shareToken = tok := tokenMatches_shareToken hpa
            have hr1 : r.shareToken = tok := tokenMatches_shareToken hpred
            rw [ha1, ← hr1]
            exact List.mem_map_of_mem ShareRecord.shareToken hrt)
        rw [List.filter_cons, if_neg (by simpa using hpa)]
        exact ih hnd'.2 r hrt hpred

/-- C5: provided tokens are globally unique (the `share_token UNIQUE`
constraint), `validateShareToken` returns owner `u` exactly when a
ShareRecord exists with the token, `active = true`, and expiry absent or
strictly in the future of the validation time; for every other token —
including any token with no record at all and any record already expired —
it returns the not-found outcome `none`. Being a pure read, it has no side
effects. -/
theorem C5_validateShareToken_spec (db : DB) (now : Int) (tok : String)
    (hnd : (db.sharedDashboards.map ShareRecord.shareToken).Nodup) :
    ∀ u : String, validateShareToken db now tok = some u ↔
      ∃ r ∈ db.sharedDashboards, r.userId = u ∧ r.shareToken = tok
        ∧ r.isActive = true ∧ ∀ e, r.expiresAt = some e → now < e := by
  intro u
  constructor
  · intro hv
    rcases hfil : db.sharedDashboards.filter (tokenMatches tok now) with _ | ⟨r, _ | _⟩
    · rw [validateShareToken, hfil] at hv; cases hv
    · rw [validateShareToken, hfil] at hv
      have hru : r.userId = u := by injection hv
      have hrmem : r ∈ db.sharedDashboards.filter (tokenMatches tok now) := by
        rw [hfil]; exact List.mem_singleton.mpr rfl
      have hmem := List.mem_of_mem_filter hrmem
      have hpred := List.of_mem_filter hrmem
      refine ⟨r, hmem, hru, tokenMatches_shareToken hpred, ?_, ?_⟩
      · have := Bool.and_elim_right (Bool.and_elim_left hpred)
        simpa using this
      · intro e he
        have := Bool.and_elim_right hpred
        rw [he] at this
        simpa using this
    · rw [validateShareToken, hfil] at hv; cases hv
  · rintro ⟨r, hmem, hru, htok, hact, hexp⟩
    have hpred : tokenMatches tok now r = true := by
      simp only [tokenMatches, htok, hact]
      cases hE : r.expiresAt with
      | none => simp
      | some e => simp [hexp e hE]
    rw [validateShareToken, filter_tokenMatches_single tok now _ hnd r hmem hpred]
    exact congrArg some hru

/-- Witness for C5: on `sampleDB` the live token validates to its owner,
and a never-issued token yields the not-found outcome. -/
theorem C5_validateShareToken_witness :
    validateShareToken sampleDB 5 "tok1" = some "owner1"
    ∧ validateShareToken sampleDB 5 "ghost" = none :=
  ⟨((C5_validateShareToken_spec sampleDB 5 "tok1" (by decide)) "owner1").mpr
      ⟨sampleRecord, by decide, rfl, rfl, rfl, by intro e he; cases he⟩,
    by decide⟩

/-- Descending order on timestamps: `tsGE a b` holds when `b ≤ a`. -/
def tsGE (a b : Int) : Prop := b ≤ a

instance : DecidableRel tsGE := fun a b => inferInstanceAs (Decidable (b ≤ a))

instance : IsTotal Int tsGE := ⟨fun a b => (le_total b a)⟩

instance : IsTrans Int tsGE := ⟨fun _ _ _ h1 h2 => le_trans h2 h1⟩

/-- `ORDER BY viewed_at DESC` over a list of timestamps. -/
def sortTimestampsDesc (ts : List Int) : List Int := List.insertionSort tsGE ts

/-- The row shape returned by `get_dashboard_view_stats`. `recentViews`
holds the (up to 10) most recent `viewed_at` timestamps. -/
structure ViewStats where
  totalViews : Nat
  uniqueIps : Nat
  viewsToday : Nat
  viewsThisWeek : Nat
  viewsThisMonth : Nat
  recentViews : List Int
deriving Repr, DecidableEq

/-- `CURRENT_DATE` as a timestamp: the start of the current calendar day
(86400 seconds per day). -/
def currentDateStart (now : Int) : Int := now / 86400 * 86400

/-- The lookup predicate of `get_dashboard_view_stats`:
`share_token = tok AND user_id = auth.uid() AND is_active = true`
(no expiry condition; an unauthenticated caller — `auth.uid()` NULL —
matches no row). -/
def statsLookup (callerId : Option String) (tok : String) (r : ShareRecord) : Bool :=
  r.shareToken == tok && callerId == some r.userId && r.isActive

/-- `public.get_dashboard_view_stats(p_share_token)`: find the caller's own
active dashboard with that token, else return the empty result; aggregate
its `dashboard_views` rows: total count, distinct non-null IPs, counts from
`CURRENT_DATE`, `CURRENT_DATE - 7 days` and `CURRENT_DATE - 30 days`, and
the 10 most recent timestamps in descending order. -/
def get_dashboard_view_stats (db : DB) (now : Int) (callerId : Option String)
    (tok : String) : Option ViewStats :=
  match db.sharedDashboards.find? (statsLookup callerId tok) with
  | none => none
  | some r =>
      let evs := db.dashboardViews.filter (fun e => e.sharedDashboardId == r.id)
      some
        { totalViews := evs.length
          uniqueIps := (evs.filterMap ViewEvent.viewerIp).dedup.length
          viewsToday := (evs.filter (fun e => decide (currentDateStart now ≤ e.viewedAt))).length
          viewsThisWeek :=
            (evs.filter (fun e => decide (currentDateStart now - 7 * 86400 ≤ e.viewedAt))).length
          viewsThisMonth :=
            (evs.filter (fun e => decide (currentDateStart now - 30 * 86400 ≤ e.viewedAt))).length
          recentViews := (sortTimestampsDesc (evs.map ViewEvent.viewedAt)).take 10 }

/-- C6: `get_dashboard_view_stats` yields a result only when the matched
ShareRecord both carries the token and belongs to the authenticated caller
(and is active); whenever no record matches both the token and the caller —
in particular for a valid token owned by a different user — it returns the
empty result, so it never exposes another user's statistics. -/
theorem C6_get_stats_owner_only (db : DB) (now : Int) (caller : Option String)
    (tok : String) :
    (∀ st, get_dashboard_view_stats db now caller tok = some st →
        ∃ r ∈ db.sharedDashboards,
          r.shareToken = tok ∧ caller = some r.userId ∧ r.isActive = true)
    ∧ ((∀ r ∈ db.sharedDashboards, r.shareToken = tok → caller ≠ some r.userId) →
        get_dashboard_view_stats db now caller tok = none) := by
  constructor
  · intro st hst
    rcases hfind : db.sharedDashboards.find? (statsLookup caller tok) with _ | r
    · rw [get_dashboard_view_stats, hfind] at hst; cases hst
    · have hmem := List.mem_of_find?_eq_some hfind
      have hpred := List.find?_some hfind
      refine ⟨r, hmem, ?_, ?_, ?_⟩
      · have := Bool.and_elim_left (Bool.and_elim_left hpred)
        simpa using this
      · have := Bool.and_elim_right (Bool.and_elim_left hpred)
        simpa using this
      · simpa using Bool.and_elim_right hpred
  · intro hmis
    have hnone : db.sharedDashboards.find? (statsLookup caller tok) = none := by
      rw [List.find?_eq_none]
      intro r hr hpred
      by_cases htok : r.shareToken = tok
      · exact hmis r hr htok (by
          have := Bool.and_elim_right (Bool.and_elim_left hpred)
          simpa using this)
      · exact htok (by
          have := Bool.and_elim_left (Bool.and_elim_left hpred)
          simpa using this)
    rw [get_dashboard_view_stats, hnone]

/-- Witness for C6: on `sampleDB`, the owner gets a (zero) statistics row
for their token, while a different authenticated user presenting the same
valid token gets the empty result. -/
theorem C6_get_stats_witness :
    get_dashboard_view_stats sampleDB 5 (some "intruder") "tok1" = none
    ∧ get_dashboard_view_stats sampleDB 5 (some "owner1") "tok1"
        = some { totalViews := 0, uniqueIps := 0, viewsToday := 0,
                 viewsThisWeek := 0, viewsThisMonth := 0, recentViews := [] } :=
  ⟨(C6_get_stats_owner_only sampleDB 5 (some "intruder") "tok1").2 (by decide),
    by decide⟩

/-- An active, never-expiring record used to probe the statistics query. -/
def statsRecord : ShareRecord :=
  { id := 3, userId := "owner7", shareToken := "tok7", isActive := true,
    createdAt := 0, updatedAt := 0, expiresAt := none, viewCount := 1 }

/-- One logged view at timestamp 10000 (early on calendar day 0). -/
def statsEvent : ViewEvent :=
  { id := 21, sharedDashboardId := 3, viewerIp := some "9.9.9.9", viewerUserAgent := none,
    viewedAt := 10000, referrer := none, country := none, city := none }

/-- Database with one dashboard and one logged view. -/
def statsDB : DB :=
  { sharedDashboards := [statsRecord], dashboardViews := [statsEvent],
    projects := [], profiles := [] }

/-- The figure the claim asserts for the week/month rollups: the number of
the dashboard's view events inside the trailing window of `days` days
ending at the server's current time. -/
def trailingWindowCount (db : DB) (now : Int) (rid : Nat) (days : Int) : Nat :=
  (db.dashboardViews.filter (fun e =>
    e.sharedDashboardId == rid && decide (now - days * 86400 ≤ e.viewedAt))).length

/-- C7 counterexample: at server time 648000 (noon of calendar day 7) the
view logged at timestamp 10000 lies outside the trailing 7-day window
(which starts at 43200), yet `get_dashboard_view_stats` reports
`viewsThisWeek = 1`, because the SQL anchors the window at
`CURRENT_DATE - 7 days` (timestamp 0), not at `now() - 7 days`. So the
week/month windows are not trailing windows relative to the server's
current time, refuting the claim as stated. -/
theorem C7_trailing_week_counterexample :
    (get_dashboard_view_stats statsDB 648000 (some "owner7") "tok7").map ViewStats.viewsThisWeek
      = some 1
    ∧ trailingWindowCount statsDB 648000 3 7 = 0 := by decide

/-- Composing the scope filter with a window filter counts rows satisfying
both conditions. -/
theorem length_filter_filter {α : Type} (p q : α → Bool) (l : List α) :
    ((l.filter p).filter q).length = l.countP (fun a => p a && q a) := by
  rw [List.filter_filter, List.countP_eq_length_filter]
  congr 1
  apply List.filter_congr
  intro a _
  exact Bool.and_comm (q a) (p a)

/-- C7 amended: for every owned ShareRecord found by the statistics lookup,
`get_dashboard_view_stats` returns: the total count of its ViewEvents; the
count of distinct non-null IP values; the count of events on the current
calendar day; the counts of events since the start of the current calendar
day minus 7 days, respectively minus 30 days (day-anchored windows, not
windows trailing from the current instant); and the 10 most recent event
timestamps in descending order — the largest timestamps, each remaining
event's timestamp being no larger. -/
theorem C7_stats_day_anchored_windows (db : DB) (now : Int) (caller : Option String)
    (tok : String) (r : ShareRecord)
    (hr : db.sharedDashboards.find? (statsLookup caller tok) = some r) :
    ∃ st, get_dashboard_view_stats db now caller tok = some st
      ∧ st.totalViews = eventCountOf db r.id
      ∧ st.uniqueIps
          = ((db.dashboardViews.filter (fun e => e.sharedDashboardId == r.id)).filterMap
              ViewEvent.viewerIp).toFinset.card
      ∧ st.viewsToday = db.dashboardViews.countP
          (fun e => e.sharedDashboardId == r.id && decide (currentDateStart now ≤ e.viewedAt))
      ∧ st.viewsThisWeek = db.dashboardViews.countP
          (fun e => e.sharedDashboardId == r.id
            && decide (currentDateStart now - 7 * 86400 ≤ e.viewedAt))
      ∧ st.viewsThisMonth = db.dashboardViews.countP
          (fun e => e.sharedDashboardId == r.id
            && decide (currentDateStart now - 30 * 86400 ≤ e.viewedAt))
      ∧ st.recentViews.Sorted tsGE
      ∧ st.recentViews.length = min 10 (eventCountOf db r.id)
      ∧ ∃ rest, (st.recentViews ++ rest).Perm
            ((db.dashboardViews.filter (fun e => e.sharedDashboardId == r.id)).map
              ViewEvent.viewedAt)
          ∧ ∀ t ∈ rest, ∀ s ∈ st.recentViews, t ≤ s := by
  have hst : get_dashboard_view_stats db now caller tok
      = some
        { totalViews := (db.dashboardViews.filter (fun e => e.sharedDashboardId == r.id)).length
          uniqueIps := ((db.dashboardViews.filter
              (fun e => e.sharedDashboardId == r.id)).filterMap ViewEvent.viewerIp).dedup.length
          viewsToday := ((db.dashboardViews.filter (fun e => e.sharedDashboardId == r.id)).filter
              (fun e => decide (currentDateStart now ≤ e.viewedAt))).length
          viewsThisWeek := ((db.dashboardViews.filter
              (fun e => e.sharedDashboardId == r.id)).filter
              (fun e => decide (currentDateStart now - 7 * 86400 ≤ e.viewedAt))).length
          viewsThisMonth := ((db.dashboardViews.filter
              (fun e => e.sharedDashboardId == r.id)).filter
              (fun e => decide (currentDateStart now - 30 * 86400 ≤ e.viewedAt))).length
          recentViews := (sortTimestampsDesc ((db.dashboardViews.filter
              (fun e => e.sharedDashboardId == r.id)).map ViewEvent.viewedAt)).take 10 } := by
    rw [get_dashboard_view_stats, hr]
  refine ⟨_, hst, ?_, ?_, ?_, ?_, ?_, ?_, ?_, ?_⟩
  · rw [eventCountOf, List.countP_eq_length_filter]
  · exact (List.card_toFinset _).symm
  · exact length_filter_filter _ _ _
  · exact length_filter_filter _ _ _
  · exact length_filter_filter _ _ _
  · exact List.Pairwise.sublist (List.take_sublist _ _) (List.sorted_insertionSort tsGE _)
  · rw [List.length_take, sortTimestampsDesc,
      (List.perm_insertionSort tsGE _).length_eq, List.length_map,
      eventCountOf, List.countP_eq_length_filter]
  · refine ⟨(sortTimestampsDesc ((db.dashboardViews.filter
        (fun e => e.sharedDashboardId == r.id)).map ViewEvent.viewedAt)).drop 10, ?_, ?_⟩
    · rw [List.take_append_drop]
      exact List.perm_insertionSort tsGE _
    · intro t ht s hs
      have hsorted : (sortTimestampsDesc ((db.dashboardViews.filter
          (fun e => e.sharedDashboardId == r.id)).map ViewEvent.viewedAt)).Pairwise tsGE :=
        List.sorted_insertionSort tsGE _
      rw [← List.take_append_drop 10 (sortTimestampsDesc _)] at hsorted
      exact (List.pairwise_append.mp hsorted).2.2 s hs t ht

/-- Witness for C7's amended theorem: on `statsDB` the owner's statistics
row exists and reports one total view. -/
theorem C7_stats_day_anchored_witness :
    ∃ st, get_dashboard_view_stats statsDB 648000 (some "owner7") "tok7" = some st
      ∧ st.totalViews = eventCountOf statsDB 3 := by
  obtain ⟨st, h1, h2, -⟩ :=
    C7_stats_day_anchored_windows statsDB 648000 (some "owner7") "tok7" statsRecord (by decide)
  exact ⟨st, h1, h2⟩

/-- The frontend `Project` interface (`id, name, client, projectUrl,
githubUrl, createdAt`) that both dashboards render. -/
structure Project where
  id : String
  name : String
  client : String
  projectUrl : String
  githubUrl : String
  createdAt : Int
deriving Repr, DecidableEq

/-- The `PublicProfile` returned alongside the shared project list. -/
structure PublicProfileOut where
  id : String
  displayName : String
  email : String
deriving Repr, DecidableEq

/-- JavaScript `a || b` over a nullable string: `b` when `a` is null or the
empty string (both falsy). -/
def jsOr (a : Option String) (b : String) : String :=
  match a with
  | some s => if s = "" then b else s
  | none => b

/-- `PublicProjectService.mapDatabaseProject`: the database row is copied
field by field into the frontend shape — `github_url` included. -/
def mapDatabaseProject (p : DbProject) : Project :=
  { id := p.id, name := p.name, client := p.client, projectUrl := p.projectUrl,
    githubUrl := p.githubUrl, createdAt := p.createdAt }

/-- Newest-first order on project rows. -/
def projGE (a b : DbProject) : Prop := b.createdAt ≤ a.createdAt

instance : DecidableRel projGE := fun a b => inferInstanceAs (Decidable (b.createdAt ≤ a.createdAt))

instance : IsTotal DbProject projGE := ⟨fun a b => le_total b.createdAt a.createdAt⟩

instance : IsTrans DbProject projGE := ⟨fun _ _ _ h1 h2 => le_trans h2 h1⟩

/-- `ORDER BY created_at DESC` over project rows. -/
def sortProjectsByCreatedDesc (l : List DbProject) : List DbProject :=
  List.insertionSort projGE l

/-- `PublicProjectService.getProjectsByShareToken(token)`: validate the
token with the same filtered-`.single()` query as `validateShareToken`;
fetch the owner's profile row (`.single()`); fetch the owner's projects
ordered newest-first and map each row with `mapDatabaseProject`; build the
public profile with the `display_name || email || 'Anonymous'` fallback.
`none` models every error outcome (invalid token, missing profile). -/
def getProjectsByShareToken (db : DB) (now : Int) (token : String) :
    Option (List Project × PublicProfileOut) :=
  match db.sharedDashboards.filter (tokenMatches token now) with
  | [r] =>
      match db.profiles.filter (fun p => p.userId == r.userId) with
      | [pr] =>
          some
            ((sortProjectsByCreatedDesc
                (db.projects.filter (fun p => p.userId == r.userId))).map mapDatabaseProject,
              { id := pr.id, displayName := jsOr pr.displayName (jsOr pr.email "Anonymous"),
                email := jsOr pr.email "" })
      | _ => none
  | _ => none

/-- The redaction property the claim asserts of the public listing: no
returned project carries a source-repository URL (the strongest sense in
which the mandatory `githubUrl` string field could be "omitted"). -/
def githubUrlRedacted (ps : List Project) : Prop := ∀ p ∈ ps, p.githubUrl = ""

/-- Share record, profile and project rows for one owner, to evaluate the
public listing concretely. -/
def shareRecord3 : ShareRecord :=
  { id := 4, userId := "owner3", shareToken := "tok3", isActive := true,
    createdAt := 0, updatedAt := 0, expiresAt := none, viewCount := 0 }

/-- The owner's profile row. -/
def profile3 : Profile :=
  { id := "prof-1", userId := "owner3", displayName := some "Evan",
    email := some "evan@example.com" }

/-- The owner's single project, with a non-empty source-repository URL. -/
def project3 : DbProject :=
  { id := "p1", userId := "owner3", name := "Demo", client := "Acme",
    projectUrl := "https://demo.acme.com", githubUrl := "https://github.com/x/demo",
    createdAt := 100 }

/-- Database for the public-listing scenario. -/
def shareDB3 : DB :=
  { sharedDashboards := [shareRecord3], dashboardViews := [],
    projects := [project3], profiles := [profile3] }

/-- C3 counterexample: on a valid token, the listing returns the project
with its stored source-repository URL intact — `mapDatabaseProject` copies
`github_url` into the result, so the field is not omitted or redacted,
refuting the claim as stated. (Only the public card component omits it
from the rendered output.) -/
theorem C3_github_url_included_counterexample :
    ((getProjectsByShareToken shareDB3 5 "tok3").map fun res => res.1.map Project.githubUrl)
        = some ["https://github.com/x/demo"]
    ∧ ¬ githubUrlRedacted (((getProjectsByShareToken shareDB3 5 "tok3").map Prod.fst).getD []) := by
  refine ⟨by decide, fun h => ?_⟩
  have := h (mapDatabaseProject project3) (by decide)
  exact absurd this (by decide)

/-- C3 amended: for every valid token (under the unique-token constraint,
with the owner's profile row present), the listing succeeds and returns
exactly the owner's projects — newest-created-first, as a permutation of
the owner's rows mapped to the frontend shape — together with the minimal
public profile; but each returned project carries the stored
source-repository URL verbatim rather than having the field
omitted/redacted. -/
theorem C3_listing_includes_github_url (db : DB) (now : Int) (token : String)
    (r : ShareRecord) (pr : Profile)
    (hnd : (db.sharedDashboards.map ShareRecord.shareToken).Nodup)
    (hr : r ∈ db.sharedDashboards) (hmatch : tokenMatches token now r = true)
    (hpr : db.profiles.filter (fun p => p.userId == r.userId) = [pr]) :
    ∃ ps prof, getProjectsByShareToken db now token = some (ps, prof)
      ∧ ps.Perm ((db.projects.filter (fun p => p.userId == r.userId)).map mapDatabaseProject)
      ∧ ps.Pairwise (fun a b => b.createdAt ≤ a.createdAt)
      ∧ (∀ p ∈ ps, ∃ q ∈ db.projects, q.userId = r.userId
          ∧ p = mapDatabaseProject q ∧ p.githubUrl = q.githubUrl)
      ∧ prof.id = pr.id
      ∧ prof.displayName = jsOr pr.displayName (jsOr pr.email "Anonymous")
      ∧ prof.email = jsOr pr.email "" := by
  have heq : getProjectsByShareToken db now token
      = some
        ((sortProjectsByCreatedDesc
            (db.projects.filter (fun p => p.userId == r.userId))).map mapDatabaseProject,
          { id := pr.id, displayName := jsOr pr.displayName (jsOr pr.email "Anonymous"),
            email := jsOr pr.email "" }) := by
    rw [getProjectsByShareToken, filter_tokenMatches_single token now _ hnd r hr hmatch]
    simp only [hpr]
  refine ⟨_, _, heq, ?_, ?_, ?_, rfl, rfl, rfl⟩
  · exact (List.perm_insertionSort projGE _).map mapDatabaseProject
  · exact List.pairwise_map.mpr ((List.sorted_insertionSort projGE _).imp (fun h => h))
  · intro p hp
    rcases List.mem_map.mp hp with ⟨q, hq, rfl⟩
    have hq' : q ∈ db.projects.filter (fun p => p.userId == r.userId) := by
      have := List.perm_insertionSort projGE
        (db.projects.filter (fun p => p.userId == r.userId))
      exact this.mem_iff.mp hq
    exact ⟨q, List.mem_of_mem_filter hq',
      by simpa using List.of_mem_filter hq', rfl, rfl⟩

/-- Witness for C3's amended theorem: on `shareDB3` the listing succeeds
and the single returned project keeps its stored GitHub URL. -/
theorem C3_listing_witness :
    ∃ ps prof, getProjectsByShareToken shareDB3 5 "tok3" = some (ps, prof)
      ∧ (∀ p ∈ ps, ∃ q ∈ shareDB3.projects, q.userId = shareRecord3.userId
          ∧ p = mapDatabaseProject q ∧ p.githubUrl = q.githubUrl) := by
  obtain ⟨ps, prof, h1, -, -, h4, -⟩ :=
    C3_listing_includes_github_url shareDB3 5 "tok3" shareRecord3 profile3
      (by decide) (by decide) (by decide) (by decide)
  exact ⟨ps, prof, h1, h4⟩

/-- The UI outcome of the `/shared/:token` page load. -/
inductive PageState where
  | errorPage (msg : String)
  | loaded (projects : List Project) (profile : PublicProfileOut)
deriving Repr, DecidableEq

/-- Whether the page reached the rendered dashboard. -/
def PageState.isLoaded : PageState → Bool
  | .loaded _ _ => true
  | _ => false

/-- The `loadSharedDashboard` effect of the `SharedDashboard` page: with no
route token, show "Invalid share link"; otherwise issue exactly one backend
interaction — the read-only `getProjectsByShareToken` — and render its
outcome. The effect makes no other call; in particular it never invokes the
`track_dashboard_view` RPC. The database is threaded through to expose the
visit's effect on stored state. -/
def loadSharedDashboard (db : DB) (now : Int) (token : Option String) :
    PageState × DB :=
  match token with
  | none => (.errorPage "Invalid share link", db)
  | some t =>
      match getProjectsByShareToken db now t with
      | none => (.errorPage "Invalid or expired share token", db)
      | some (ps, prof) => (.loaded ps prof, db)

/-- C4 (code bug): a visit to `/shared/{token}` never runs the "track view"
operation — the page-load effect leaves the entire database unchanged for
every token; concretely, a successful anonymous load of the valid token
`tok3` renders the dashboard while the record's view counter stays 0 and no
ViewEvent row is written, contradicting the claim that every visit triggers
both the listing and the view tracking. -/
theorem C4_page_load_never_tracks :
    (∀ db now token, (loadSharedDashboard db now token).2 = db)
    ∧ (loadSharedDashboard shareDB3 5 (some "tok3")).1.isLoaded = true
    ∧ viewCountOf (loadSharedDashboard shareDB3 5 (some "tok3")).2 4 = 0
    ∧ eventCountOf (loadSharedDashboard shareDB3 5 (some "tok3")).2 4 = 0 := by
  refine ⟨?_, by decide, by decide, by decide⟩
  intro db now token
  rcases token with _ | t
  · rfl
  · rcases h : getProjectsByShareToken db now t with _ | ⟨ps, prof⟩ <;>
      simp [loadSharedDashboard, h]

/-- A ShareRecord with the two columns mutated by the view-tracking
increment (counter and `updated_at` stamp) erased; the fields the validity
predicate reads are untouched. -/
def strip (s : ShareRecord) : ShareRecord := { s with viewCount := 0, updatedAt := 0 }

/-- One in-flight `track_dashboard_view` invocation: `pc` 0 = about to run
the validity lookup, 1 = lookup succeeded (dashboard id recorded in
`dash`), 2 = counter incremented, 3 = view row inserted (done), 4 = lookup
failed (returned false with no writes). -/
structure TrackThread where
  pc : Nat
  dash : Option Nat
deriving Repr, DecidableEq

/-- One atomic step of an invocation: the three SQL statements of
`track_dashboard_view` — lookup, relative `view_count = view_count + 1`
update, view-row insert — each execute atomically against the shared
database state. -/
def threadStep (now : Int) (tok : String) (db : DB) (t : TrackThread) :
    DB × TrackThread :=
  match t.pc, t.dash with
  | 0, _ =>
      match sqlLookup db now tok with
      | none => (db, { pc := 4, dash := none })
      | some d => (db, { pc := 1, dash := some d })
  | 1, some d => (sqlIncrement db now d, { t with pc := 2 })
  | 2, some d => (sqlInsertView db (mkViewEvent 0 d none none none now), { t with pc := 3 })
  | _, _ => (db, t)

/-- Run one scheduler choice: advance thread `i` (no-op for an absent
index). -/
def sysStep (now : Int) (tok : String) (s : DB × List TrackThread) (i : Nat) :
    DB × List TrackThread :=
  match s.2[i]? with
  | none => s
  | some t =>
      ((threadStep now tok s.1 t).1, s.2.set i (threadStep now tok s.1 t).2)

/-- Execute an arbitrary interleaving of the in-flight invocations. -/
def runSchedule (now : Int) (tok : String) (s : DB × List TrackThread) :
    List Nat → DB × List TrackThread
  | [] => s
  | i :: rest => runSchedule now tok (sysStep now tok s i) rest

/-- Replacing one list element exchanges its contribution to `countP`. -/
theorem countP_set_exchange {α : Type} (p : α → Bool) :
    ∀ (l : List α) (i : Nat) (t t' : α), l[i]? = some t →
      (l.set i t').countP p + (if p t then 1 else 0)
        = l.countP p + (if p t' then 1 else 0) := by
  intro l
  induction l with
  | nil => intro i t t' h; cases h
  | cons a tl ih =>
      intro i t t' h
      cases i with
      | zero =>
          have ha : a = t := by simpa using h
          subst ha
          simp only [List.set_cons_zero, List.countP_cons]
          omega
      | succ j =>
          have h' : tl[j]? = some t := by simpa using h
          have hih := ih j t t' h'
          simp only [List.set_cons_succ, List.countP_cons]
          omega

/-- Replacing an element without changing the predicate's verdict leaves
the count unchanged. -/
theorem countP_set_eq {α : Type} (p : α → Bool) (l : List α) (i : Nat) (t t' : α)
    (hget : l[i]? = some t) (hp : p t = p t') :
    (l.set i t').countP p = l.countP p := by
  have h := countP_set_exchange p l i t t' hget
  rw [hp] at h
  omega

/-- Replacing a non-satisfying element with a satisfying one raises the
count by one. -/
theorem countP_set_succ {α : Type} (p : α → Bool) (l : List α) (i : Nat) (t t' : α)
    (hget : l[i]? = some t) (hp : p t = false) (hp' : p t' = true) :
    (l.set i t').countP p = l.countP p + 1 := by
  have h := countP_set_exchange p l i t t' hget
  rw [hp, hp'] at h
  simpa using h

/-- The counter increment does not disturb the columns the validity
predicate reads. -/
theorem strip_map_inc (now : Int) (rid : Nat) (l : List ShareRecord) :
    ((l.map fun s =>
        if s.id == rid then { s with viewCount := s.viewCount + 1, updatedAt := now } else s).map
      strip) = l.map strip := by
  induction l with
  | nil => rfl
  | cons a t ih =>
      rw [List.map_cons, List.map_cons, List.map_cons, ih]
      congr 1
      by_cases h : (a.id == rid) = true
      · rw [if_pos h]
        rfl
      · rw [if_neg h]

/-- Databases agreeing after `strip` resolve every token lookup alike. -/
theorem sqlLookup_congr_strip (now : Int) (tok : String) :
    ∀ (l1 l2 : List ShareRecord), l1.map strip = l2.map strip →
      (l1.find? (tokenMatches tok now)).map ShareRecord.id
        = (l2.find? (tokenMatches tok now)).map ShareRecord.id := by
  intro l1
  induction l1 with
  | nil =>
      intro l2 h
      cases l2 with
      | nil => rfl
      | cons b t2 => simp at h
  | cons a t1 ih =>
      intro l2 h
      cases l2 with
      | nil => simp at h
      | cons b t2 =>
          rw [List.map_cons, List.map_cons] at h
          injection h with h1 h2
          have hm : tokenMatches tok now a = tokenMatches tok now b := by
            have hc : tokenMatches tok now (strip a) = tokenMatches tok now (strip b) := by
              rw [h1]
            exact hc
          have hid : a.id = b.id := by
            have h3 := congrArg ShareRecord.id h1
            exact h3
          by_cases hma : tokenMatches tok now a = true
          · rw [List.find?_cons_of_pos _ hma, List.find?_cons_of_pos _ (hm ▸ hma)]
            simp [hid]
          · rw [List.find?_cons_of_neg _ hma, List.find?_cons_of_neg _ (hm ▸ hma)]
            exact ih t2 h2

/-- Databases agreeing after `strip` contain the same record ids. -/
theorem exists_id_of_strip_eq {l1 l2 : List ShareRecord}
    (h : l1.map strip = l2.map strip) (rid : Nat)
    (hex : ∃ s ∈ l2, s.id = rid) : ∃ s ∈ l1, s.id = rid := by
  have hid : l1.map ShareRecord.id = l2.map ShareRecord.id := by
    have h1 := congrArg (List.map ShareRecord.id) h
    rw [List.map_map, List.map_map] at h1
    exact h1
  rcases hex with ⟨s, hs, hsid⟩
  have hmem : rid ∈ l2.map ShareRecord.id := List.mem_map.mpr ⟨s, hs, hsid⟩
  rw [← hid] at hmem
  rcases List.mem_map.mp hmem with ⟨s', hs', hsid'⟩
  exact ⟨s', hs', hsid'⟩

/-- Whether an invocation has already executed its counter increment. -/
def pcIncremented (t : TrackThread) : Bool := decide (2 ≤ t.pc)

/-- Whether an invocation has completed, its view row inserted. -/
def pcDone (t : TrackThread) : Bool := t.pc == 3

/-- The interleaving invariant: the validity-relevant columns never change;
the target record's counter exceeds its initial value by the number of
invocations past their increment; its view-event count by the number past
their insert; and every in-flight invocation that passed the lookup holds
the target dashboard id. -/
def TrackInv (db0 : DB) (rid : Nat) (db : DB) (ths : List TrackThread) : Prop :=
  db.sharedDashboards.map strip = db0.sharedDashboards.map strip
  ∧ viewCountOf db rid = viewCountOf db0 rid + ths.countP pcIncremented
  ∧ eventCountOf db rid = eventCountOf db0 rid + ths.countP pcDone
  ∧ (∀ t ∈ ths, t.pc ≤ 3 ∧ (1 ≤ t.pc → t.dash = some rid))

/-- Every scheduler choice preserves the interleaving invariant, the
relative `+ 1` update being what keeps the counter exact under any
interleaving. -/
theorem TrackInv_sysStep (db0 : DB) (now : Int) (tok : String) (rid : Nat)
    (h0 : sqlLookup db0 now tok = some rid)
    (db : DB) (ths : List TrackThread)
    (h : TrackInv db0 rid db ths) (i : Nat) :
    TrackInv db0 rid (sysStep now tok (db, ths) i).1 (sysStep now tok (db, ths) i).2 := by
  obtain ⟨hstrip, hcount, hevents, hthreads⟩ := h
  rcases hget : ths[i]? with _ | t
  · simp only [sysStep, hget]
    exact ⟨hstrip, hcount, hevents, hthreads⟩
  · have htmem : t ∈ ths := List.getElem?_mem hget
    have hda := hthreads t htmem
    have hlook : sqlLookup db now tok = some rid := by
      rw [sqlLookup, sqlLookup_congr_strip now tok _ _ hstrip]
      exact h0
    have hex0 : ∃ s ∈ db0.sharedDashboards, s.id = rid := by
      rcases hfind : db0.sharedDashboards.find? (tokenMatches tok now) with _ | r
      · rw [sqlLookup, hfind] at h0; cases h0
      · rw [sqlLookup, hfind] at h0
        exact ⟨r, List.mem_of_find?_eq_some hfind, by injection h0⟩
    have hex : ∃ s ∈ db.sharedDashboards, s.id = rid :=
      exists_id_of_strip_eq hstrip rid hex0
    obtain ⟨pc, dash⟩ := t
    rcases pc with _ | _ | _ | _ | pc
    · -- lookup step: state unchanged, thread records the dashboard id
      simp only [sysStep, hget, threadStep, hlook]
      refine ⟨hstrip, ?_, ?_, ?_⟩
      · rw [countP_set_eq pcIncremented ths i _
            (⟨1, some rid⟩ : TrackThread) hget rfl]
        exact hcount
      · rw [countP_set_eq pcDone ths i _
            (⟨1, some rid⟩ : TrackThread) hget rfl]
        exact hevents
      · intro u hu
        rcases List.mem_or_eq_of_mem_set hu with hu' | rfl
        · exact hthreads u hu'
        · exact ⟨(by decide : (1 : Nat) ≤ 3), fun _ => rfl⟩
    · -- increment step: relative counter update on the target row
      have hd : dash = some rid := hda.2 (Nat.le_refl 1)
      subst hd
      simp only [sysStep, hget, threadStep]
      refine ⟨?_, ?_, ?_, ?_⟩
      · rw [← hstrip]
        exact strip_map_inc now rid db.sharedDashboards
      · have hone : viewCountOf (sqlIncrement db now rid) rid = viewCountOf db rid + 1 := by
          simp only [viewCountOf, sqlIncrement]
          exact find?_viewCount_map_inc now rid db.sharedDashboards hex
        rw [hone, hcount, countP_set_succ pcIncremented ths i _
          (⟨2, some rid⟩ : TrackThread) hget rfl rfl]
        omega
      · have hsame : eventCountOf (sqlIncrement db now rid) rid = eventCountOf db rid := rfl
        rw [hsame, hevents, countP_set_eq pcDone ths i _
          (⟨2, some rid⟩ : TrackThread) hget rfl]
      · intro u hu
        rcases List.mem_or_eq_of_mem_set hu with hu' | rfl
        · exact hthreads u hu'
        · exact ⟨(by decide : (2 : Nat) ≤ 3), fun _ => rfl⟩
    · -- insert step: one new view row referencing the target dashboard
      have hd : dash = some rid := hda.2 (Nat.le_add_left 1 1)
      subst hd
      simp only [sysStep, hget, threadStep]
      refine ⟨hstrip, ?_, ?_, ?_⟩
      · have hsame : viewCountOf (sqlInsertView db (mkViewEvent 0 rid none none none now)) rid
            = viewCountOf db rid := rfl
        rw [hsame, hcount, countP_set_eq pcIncremented ths i _
          (⟨3, some rid⟩ : TrackThread) hget rfl]
      · have hone : eventCountOf (sqlInsertView db (mkViewEvent 0 rid none none none now)) rid
            = eventCountOf db rid + 1 := by
          simp [eventCountOf, sqlInsertView, mkViewEvent, List.countP_append]
        rw [hone, hevents, countP_set_succ pcDone ths i _
          (⟨3, some rid⟩ : TrackThread) hget rfl rfl]
        omega
      · intro u hu
        rcases List.mem_or_eq_of_mem_set hu with hu' | rfl
        · exact hthreads u hu'
        · exact ⟨(by decide : (3 : Nat) ≤ 3), fun _ => rfl⟩
    · -- completed invocation: no further effect
      simp only [sysStep, hget, threadStep]
      refine ⟨hstrip, ?_, ?_, ?_⟩
      · rw [countP_set_eq pcIncremented ths i _ _ hget rfl]
        exact hcount
      · rw [countP_set_eq pcDone ths i _ _ hget rfl]
        exact hevents
      · intro u hu
        rcases List.mem_or_eq_of_mem_set hu with hu' | rfl
        · exact hthreads u hu'
        · exact hda
    · -- pc ≥ 4 is ruled out by the invariant
      exfalso
      have h31 : pc + 4 ≤ 3 := hda.1
      omega

/-- The invariant survives an arbitrary schedule. -/
theorem TrackInv_runSchedule (db0 : DB) (now : Int) (tok : String) (rid : Nat)
    (h0 : sqlLookup db0 now tok = some rid) (sched : List Nat) :
    ∀ (db : DB) (ths : List TrackThread), TrackInv db0 rid db ths →
      TrackInv db0 rid (runSchedule now tok (db, ths) sched).1
        (runSchedule now tok (db, ths) sched).2 := by
  induction sched with
  | nil => intro db ths h; exact h
  | cons i rest ih =>
      intro db ths h
      have hstep := TrackInv_sysStep db0 now tok rid h0 db ths h i
      have hrec := ih (sysStep now tok (db, ths) i).1 (sysStep now tok (db, ths) i).2 hstep
      simpa [runSchedule] using hrec

/-- A schedule never changes the number of in-flight invocations. -/
theorem runSchedule_length (now : Int) (tok : String) :
    ∀ (sched : List Nat) (s : DB × List TrackThread),
      (runSchedule now tok s sched).2.length = s.2.length := by
  intro sched
  induction sched with
  | nil => intro s; rfl
  | cons i rest ih =>
      intro s
      rw [runSchedule, ih]
      rcases hget : s.2[i]? with _ | t <;> simp [sysStep, hget]

/-- C9: for a token whose lookup succeeds (valid, active, non-expired
record `rid`), `n` concurrent `track_dashboard_view` invocations — three
atomic SQL statements each, interleaved by an arbitrary schedule — that all
run to completion raise that record's view counter by exactly `n` and
insert exactly `n` new ViewEvent rows referencing it, because the increment
is the relative "add 1" update of the stored routine, never a
read-then-write-back of an absolute value. -/
theorem C9_concurrent_track_increments (db0 : DB) (now : Int) (tok : String)
    (rid : Nat) (n : Nat) (sched : List Nat)
    (h0 : sqlLookup db0 now tok = some rid)
    (hdone : ∀ t ∈ (runSchedule now tok
        (db0, List.replicate n ⟨0, none⟩) sched).2, t.pc = 3) :
    viewCountOf (runSchedule now tok (db0, List.replicate n ⟨0, none⟩) sched).1 rid
      = viewCountOf db0 rid + n
    ∧ eventCountOf (runSchedule now tok (db0, List.replicate n ⟨0, none⟩) sched).1 rid
      = eventCountOf db0 rid + n := by
  have hinv0 : TrackInv db0 rid db0 (List.replicate n ⟨0, none⟩) := by
    refine ⟨rfl, ?_, ?_, ?_⟩
    · have hz : (List.replicate n (⟨0, none⟩ : TrackThread)).countP pcIncremented = 0 := by
        rw [List.countP_eq_zero]
        intro a ha
        rw [List.eq_of_mem_replicate ha]
        decide
      rw [hz]
      omega
    · have hz : (List.replicate n (⟨0, none⟩ : TrackThread)).countP pcDone = 0 := by
        rw [List.countP_eq_zero]
        intro a ha
        rw [List.eq_of_mem_replicate ha]
        decide
      rw [hz]
      omega
    · intro t ht
      rw [List.eq_of_mem_replicate ht]
      exact ⟨by decide, fun hc => absurd hc (by decide)⟩
  obtain ⟨hstrip, hcount, hevents, hths⟩ :=
    TrackInv_runSchedule db0 now tok rid h0 sched db0 (List.replicate n ⟨0, none⟩) hinv0
  have hlen := runSchedule_length now tok sched (db0, List.replicate n ⟨0, none⟩)
  have hc2 : (runSchedule now tok (db0, List.replicate n ⟨0, none⟩) sched).2.countP
      pcIncremented = n := by
    rw [List.countP_eq_length.mpr, hlen]
    · exact List.length_replicate n _
    · intro a ha
      rw [pcIncremented, hdone a ha]
      decide
  have hc3 : (runSchedule now tok (db0, List.replicate n ⟨0, none⟩) sched).2.countP
      pcDone = n := by
    rw [List.countP_eq_length.mpr, hlen]
    · exact List.length_replicate n _
    · intro a ha
      rw [pcDone, hdone a ha]
      decide
  exact ⟨by rw [hcount, hc2], by rw [hevents, hc3]⟩

/-- Witness for C9: two invocations against `sampleDB`'s live token, fully
interleaved (check/check, increment/increment, insert/insert), leave the
counter at 0 + 2 and two view rows. -/
theorem C9_concurrent_track_witness :
    viewCountOf (runSchedule 5 "tok1"
        (sampleDB, List.replicate 2 ⟨0, none⟩) [0, 1, 0, 1, 0, 1]).1 1
      = viewCountOf sampleDB 1 + 2
    ∧ eventCountOf (runSchedule 5 "tok1"
        (sampleDB, List.replicate 2 ⟨0, none⟩) [0, 1, 0, 1, 0, 1]).1 1
      = eventCountOf sampleDB 1 + 2 :=
  C9_concurrent_track_increments sampleDB 5 "tok1" 1 2 [0, 1, 0, 1, 0, 1]
    (by decide) (by decide)

/-- A database caller as row-level security sees it: the authenticated
identity (`auth.uid()`, absent for anonymous callers) plus whatever share
token the caller happens to present in its query filters — which a `USING`
clause cannot observe. -/
structure Caller where
  uid : Option String
  presentedToken : Option String
deriving Repr, DecidableEq

/-- Whether a record is active and unexpired at `now` (the row condition
both public policies test). -/
def activeUnexpired (now : Int) (r : ShareRecord) : Bool :=
  r.isActive && (match r.expiresAt with | none => true | some e => decide (now < e))

/-- Policy "Public can view active shared dashboards for validation":
`USING (is_active = true AND (expires_at IS NULL OR expires_at > now()))`.
The caller is a parameter only to express that the clause cannot read it. -/
def policyPublicViewSharedDashboards (now : Int) (_t : Caller) (r : ShareRecord) : Bool :=
  r.isActive && (match r.expiresAt with | none => true | some e => decide (now < e))

/-- Policy "Users can view their own shared dashboards":
`USING (auth.uid() = user_id)`. -/
def policyOwnViewSharedDashboards (t : Caller) (r : ShareRecord) : Bool :=
  t.uid == some r.userId

/-- Policy "Public can view projects via shared dashboard":
`USING (EXISTS (SELECT 1 FROM shared_dashboards sd WHERE sd.user_id =
projects.user_id AND sd.is_active AND (sd.expires_at IS NULL OR
sd.expires_at > now())))`. -/
def policyPublicViewProjects (db : DB) (now : Int) (_t : Caller) (p : DbProject) : Bool :=
  db.sharedDashboards.any (fun sd => sd.userId == p.userId && activeUnexpired now sd)

/-- The `shared_dashboards` rows a caller can SELECT: permissive policies
combine by OR. -/
def visibleSharedDashboards (db : DB) (now : Int) (t : Caller) : List ShareRecord :=
  db.sharedDashboards.filter
    (fun r => policyOwnViewSharedDashboards t r || policyPublicViewSharedDashboards now t r)

/-- C10: neither public SELECT policy is keyed to the caller's presented
token. The `shared_dashboards` policy admits exactly the rows that are
active with expiry absent or in the future, for every caller alike; hence
any unauthenticated caller — whatever token they present, or none — can
read every such row, its `share_token` column included. The `projects`
policy admits a row exactly when its owner has *some* active, unexpired
ShareRecord, again for every caller alike, independent of any token. -/
theorem C10_public_policies_not_token_scoped (db : DB) (now : Int) :
    (∀ t t' : Caller, ∀ r : ShareRecord,
        policyPublicViewSharedDashboards now t r = policyPublicViewSharedDashboards now t' r)
    ∧ (∀ t : Caller, ∀ r : ShareRecord,
        policyPublicViewSharedDashboards now t r = activeUnexpired now r)
    ∧ (∀ t : Caller, t.uid = none →
        visibleSharedDashboards db now t = db.sharedDashboards.filter (activeUnexpired now))
    ∧ (∀ t : Caller, t.uid = none → ∀ r ∈ db.sharedDashboards,
        activeUnexpired now r = true → r.shareToken ∈
          (visibleSharedDashboards db now t).map ShareRecord.shareToken)
    ∧ (∀ t t' : Caller, ∀ p : DbProject,
        policyPublicViewProjects db now t p = policyPublicViewProjects db now t' p)
    ∧ (∀ t : Caller, ∀ p : DbProject,
        policyPublicViewProjects db now t p = true ↔
          ∃ sd ∈ db.sharedDashboards, sd.userId = p.userId
            ∧ activeUnexpired now sd = true) := by
  refine ⟨fun _ _ _ => rfl, fun _ _ => rfl, ?_, ?_, fun _ _ _ => rfl, ?_⟩
  · intro t ht
    rw [visibleSharedDashboards]
    apply List.filter_congr
    intro r _
    rw [policyOwnViewSharedDashboards, ht]
    rfl
  · intro t ht r hr hact
    have hvis : r ∈ visibleSharedDashboards db now t := by
      rw [visibleSharedDashboards]
      apply List.mem_filter.mpr
      refine ⟨hr, ?_⟩
      rw [policyOwnViewSharedDashboards, ht]
      simp [policyPublicViewSharedDashboards, activeUnexpired] at hact ⊢
      exact hact
    exact List.mem_map_of_mem ShareRecord.shareToken hvis
  · intro t p
    rw [policyPublicViewProjects, List.any_eq_true]
    constructor
    · rintro ⟨sd, hsd, hcond⟩
      have h1 := Bool.and_elim_left hcond
      have h2 := Bool.and_elim_right hcond
      exact ⟨sd, hsd, by simpa using h1, h2⟩
    · rintro ⟨sd, hsd, huid, hact⟩
      exact ⟨sd, hsd, by simp [huid, hact]⟩

/-- Witness for C10: an anonymous caller presenting no token (and one
presenting an unrelated token) both see `sampleRecord`'s row — token
included — and `owner3`'s project passes the public policy although the
caller supplied no token at all. -/
theorem C10_public_policies_witness :
    "tok1" ∈ (visibleSharedDashboards sampleDB 5 ⟨none, none⟩).map ShareRecord.shareToken
    ∧ visibleSharedDashboards sampleDB 5 ⟨none, some "unrelated"⟩
        = visibleSharedDashboards sampleDB 5 ⟨none, none⟩
    ∧ policyPublicViewProjects shareDB3 5 ⟨none, none⟩ project3 = true :=
  ⟨(C10_public_policies_not_token_scoped sampleDB 5).2.2.2.1 ⟨none, none⟩ rfl
      sampleRecord (by decide) (by decide),
    by decide,
    ((C10_public_policies_not_token_scoped shareDB3 5).2.2.2.2.2 ⟨none, none⟩ project3).mpr
      ⟨shareRecord3, by decide, rfl, by decide⟩⟩

end Portfolio
